import Mathlib

/-!
Verification development for the scrapfly-scrape repository.

We shallowly embed the in-scope orchestration logic of
`src/scrape_all_profiles.py` and `src/utils.py`:

* a text line is a `List Char` (Python's `str` restricted to one line);
* the on-disk state is `FS`, an association list from chunk index to the
  list of lines of the chunk file `{prefix}_{index:03d}.jsonl` (the prefix
  string is fixed for a whole run and plays no role in any claim, so files
  are keyed by their numeric index alone), plus a flag recording that the
  output directory was created;
* `json.dumps` / `json.loads` of the Python standard library are external
  collaborators and are modelled abstractly as functions
  `dumps : Rec → Option Line` and `loads : Line → Option Rec`, `none`
  standing for a raised exception;
* the `IncrementalJSONLSaver` class becomes a `SaverState` record and pure
  transition functions (`startNewFile`, `save_record`, `closeSaver`)
  threading the `FS` explicitly; file handles are modelled by
  `SaverState.openFile`, the index of the currently open chunk file
  (`none` = handle closed); a flush is immediate in the model because
  writes go straight to the `FS`.
-/

namespace ScrapflyScrape

/-- A single text line, without its trailing newline character. -/
abbrev Line := List Char

/-- On-disk state: the output directory flag and the chunk files, keyed by
their numeric chunk index; each file is the list of lines it holds. -/
structure FS where
  dirMade : Bool
  files : List (Nat × List Line)
deriving DecidableEq, Repr

/-- The empty disk: no directory, no files. -/
def emptyFS : FS := ⟨false, []⟩

/-- Set (create or truncate-and-rewrite) the contents of chunk file `i`:
models `open(path, "w")` followed by writing `ls`. -/
def setFileList (i : Nat) (ls : List Line) : List (Nat × List Line) → List (Nat × List Line)
  | [] => [(i, ls)]
  | q :: rest => if q.1 = i then (i, ls) :: rest else q :: setFileList i ls rest

/-- Set the contents of chunk file `i` on the disk. -/
def FS.setFile (fs : FS) (i : Nat) (ls : List Line) : FS :=
  ⟨fs.dirMade, setFileList i ls fs.files⟩

/-- Look up the contents of chunk file `i`. -/
def getFileList (i : Nat) : List (Nat × List Line) → Option (List Line)
  | [] => none
  | q :: rest => if q.1 = i then some q.2 else getFileList i rest

/-- Contents of chunk file `i`, if it exists. -/
def FS.getFile (fs : FS) (i : Nat) : Option (List Line) :=
  getFileList i fs.files

/-- Number of distinct chunk files present on the disk. -/
def FS.numFiles (fs : FS) : Nat := fs.files.length

/-- Append one line to chunk file `i`: models `handle.write(line + "\n")`
on the handle open on file `i` (the file exists whenever a handle is open
on it, since `open(path, "w")` created it). -/
def FS.appendLine (fs : FS) (i : Nat) (l : Line) : FS :=
  fs.setFile i (((fs.getFile i).getD []) ++ [l])

/-- Total number of lines across all chunk files on the disk. -/
def FS.totalLines (fs : FS) : Nat :=
  (fs.files.map (fun p => p.2.length)).sum

/-- The raw character contents of a file given as a list of lines: each
line followed by one newline character. -/
def fileText (ls : List Line) : Line :=
  ls.foldr (fun l acc => l ++ '\n' :: acc) []

/-- State of an `IncrementalJSONLSaver` instance: mirrors the fields
`chunk_size`, `current_chunk`, `current_file_records`,
`total_records_saved` of `scrape_all_profiles.py`; `openFile` is the index
encoded in `current_file_path` when `current_file_handle` is not `None`. -/
structure SaverState where
  chunk_size : Nat
  current_chunk : Nat
  current_file_records : Nat
  total_records_saved : Nat
  openFile : Option Nat
deriving DecidableEq, Repr

/-- `validate_jsonl_record` (src/scrape_all_profiles.py, lines 51-60):
serialize the record, re-parse the result, report `False` on any
exception. -/
def validate_jsonl_record {Rec : Type} (dumps : Rec → Option Line)
    (loads : Line → Option Rec) (r : Rec) : Bool :=
  match dumps r with
  | none => false
  | some s => (loads s).isSome

/-- `IncrementalJSONLSaver._start_new_file` (lines 79-89): close the old
handle if any, then open (truncating) the file named with the CURRENT
chunk index and reset the per-file record counter. -/
def startNewFile (s : SaverState) (fs : FS) : SaverState × FS :=
  ({ s with openFile := some s.current_chunk, current_file_records := 0 },
   fs.setFile s.current_chunk [])

/-- `IncrementalJSONLSaver.__init__` (lines 65-77): create the output
directory, zero the counters, set `current_chunk = 1`, and immediately
start the first file. -/
def initSaver (chunk_size : Nat) (fs : FS) : SaverState × FS :=
  startNewFile
    { chunk_size := chunk_size, current_chunk := 1, current_file_records := 0,
      total_records_saved := 0, openFile := none }
    { fs with dirMade := true }

/-- `IncrementalJSONLSaver.save_record` (lines 91-117). Returns the Python
return value together with the new saver state and disk. Exceptions raised
after the rollover (a failing `json.dumps` at line 106, or writing on a
`None` handle) are caught by the `except` clause and yield `False` while
keeping the state mutations already performed, exactly as in Python. -/
def save_record {Rec : Type} (dumps : Rec → Option Line) (loads : Line → Option Rec)
    (s : SaverState) (fs : FS) (r : Rec) : Bool × SaverState × FS :=
  if validate_jsonl_record dumps loads r = false then (false, s, fs)
  else
    let sfs :=
      if s.current_file_records ≥ s.chunk_size then
        let t := startNewFile s fs
        ({ t.1 with current_chunk := t.1.current_chunk + 1 }, t.2)
      else (s, fs)
    match dumps r, sfs.1.openFile with
    | some line, some j =>
        (true,
         { sfs.1 with current_file_records := sfs.1.current_file_records + 1,
                      total_records_saved := sfs.1.total_records_saved + 1 },
         sfs.2.appendLine j line)
    | _, _ => (false, sfs.1, sfs.2)

/-- `IncrementalJSONLSaver.close` (lines 119-125): close the handle (set
it to `None`); the disk is untouched. -/
def closeSaver (s : SaverState) : SaverState :=
  { s with openFile := none }

/-- The pair logged by `close`: `total_records_saved` and `current_chunk`
("Saved N total records across M files"). -/
def closeReport (s : SaverState) : Nat × Nat :=
  (s.total_records_saved, s.current_chunk)

/-! ### A concrete run exhibiting the rollover behaviour

Records are natural numbers; `dumpsA n` serializes `n` as `n` copies of
the character `a` and always succeeds, `loadsA` parses any line, so every
record passes `validate_jsonl_record`. The saver is created with
`chunk_size = 1` and two records are saved. -/

/-- Toy serializer: record `n` becomes a line of `n` copies of `a`. -/
def dumpsA : Nat → Option Line := fun n => some (List.replicate n 'a')

/-- Toy parser: any line parses back to its length. -/
def loadsA : Line → Option Nat := fun l => some l.length

/-- State after `IncrementalJSONLSaver(chunk_size=1)` and one `save_record(1)`. -/
def runA1 : Bool × SaverState × FS :=
  save_record dumpsA loadsA (initSaver 1 emptyFS).1 (initSaver 1 emptyFS).2 1

/-- State after the second call, `save_record(2)`, which triggers rollover. -/
def runA2 : Bool × SaverState × FS :=
  save_record dumpsA loadsA runA1.2.1 runA1.2.2 2

/-! ### The integrity verifier `verify_jsonl_integrity` (lines 186-220)

The verifier re-reads every chunk file in sorted order, strips each line,
skips blank lines, re-parses the rest with `json.loads` (a parse failure
raises and fails the whole run), checks that the stripped line starts with
a left brace and ends with a right brace (otherwise raises `ValueError`),
sums the per-file counts and finally compares the sum with
`expected_total`. We model success as `true` and any raised exception or
count mismatch as `false`. -/

/-- Characters removed by Python's `str.strip()` (whitespace). -/
def isPySpace (c : Char) : Bool :=
  c = ' ' || c = '\t' || c = '\n' || c = '\x0d' || c = '\x0b' || c = '\x0c'

/-- `line.strip()`: drop leading and trailing whitespace. -/
def stripLine (l : Line) : Line :=
  ((l.dropWhile isPySpace).reverse.dropWhile isPySpace).reverse

/-- `line.startswith(chr(0x7b))`: the first character is a left brace. -/
def startsBrace (l : Line) : Bool :=
  match l with
  | [] => false
  | c :: _ => c = '\x7b'

/-- `line.endswith(chr(0x7d))`: the last character is a right brace. -/
def endsBrace (l : Line) : Bool :=
  match l.getLast? with
  | none => false
  | some c => c = '\x7d'

/-- The per-file loop of `verify_jsonl_integrity`: returns the number of
valid non-blank lines, or `none` if some line raised (failed to parse, or
failed the brace check). -/
def verifyFileLines {Rec : Type} (loads : Line → Option Rec) : List Line → Option Nat
  | [] => some 0
  | line :: rest =>
    if (stripLine line).isEmpty then verifyFileLines loads rest
    else
      match loads (stripLine line) with
      | none => none
      | some _ =>
        if startsBrace (stripLine line) && endsBrace (stripLine line) then
          (verifyFileLines loads rest).map (· + 1)
        else none

/-- `sorted(chunk_files)`: the chunk files in ascending index order. -/
def sortFiles (files : List (Nat × List Line)) : List (Nat × List Line) :=
  List.insertionSort (fun a b => a.1 ≤ b.1) files

/-- The outer loop of `verify_jsonl_integrity`: sum the per-file counts
(`total_lines += chunk_lines`), propagating any raised exception. -/
def verifyFilesTotal {Rec : Type} (loads : Line → Option Rec) :
    List (Nat × List Line) → Option Nat
  | [] => some 0
  | p :: rest =>
    match verifyFileLines loads p.2 with
    | none => none
    | some n => (verifyFilesTotal loads rest).map (n + ·)

/-- `verify_jsonl_integrity` (lines 186-220): `true` means the function
returned normally, `false` that it raised. -/
def verify_jsonl_integrity {Rec : Type} (loads : Line → Option Rec) (fs : FS)
    (expected_total : Nat) : Bool :=
  match verifyFilesTotal loads (sortFiles fs.files) with
  | none => false
  | some total_lines => total_lines == expected_total

/-- Specification-side line validity: blank after stripping, or parses and
is brace-delimited after stripping. -/
def lineOK {Rec : Type} (loads : Line → Option Rec) (l : Line) : Bool :=
  (stripLine l).isEmpty ||
    ((loads (stripLine l)).isSome && (startsBrace (stripLine l) && endsBrace (stripLine l)))

/-- Number of non-blank lines of a file. -/
def countNonBlank (ls : List Line) : Nat :=
  (ls.filter (fun l => !(stripLine l).isEmpty)).length

/-! ### The batch runner `scrape_profiles_in_batches` (lines 136-184)

`linkedin.scrape_profile` is the external fetch collaborator, modelled as
`fetch : List U → Option (List (Option P))`: `none` is a raised
exception, and an inner `none` a falsy (failed/skipped) per-item result.
The envelope built at lines 159-165 (original profile, scraped payload,
`time.time()` timestamp, batch number, record index) is modelled by an
abstract constructor `env : Item → P → Nat → Nat → Rec` taking the item,
the payload, the batch number `i // batch_size + 1` and the record index
`i + j`; the wall-clock timestamp is part of `env`'s output and is
irrelevant to every claim. `asyncio.sleep` changes no modelled state and
is omitted. The runner's result records the returned success count, the
final saver and disk states, the trace of `fetch` invocations, and the
trace of records passed to `save_record` paired with the reported
write result. -/

/-- Result of processing one batch: the batch success count, the new
saver and disk states, and the records passed to `save_record` in order,
each paired with the `save_record` return value. -/
structure BatchResult (Rec : Type) where
  succ : Nat
  saver : SaverState
  fs : FS
  writes : List (Rec × Bool)
deriving Repr

/-- The inner loop of lines 156-170: iterate over the fetched results
with index `j`, skip falsy results, build the envelope for the rest,
save it and count the reported successes. A fetched list longer than the
batch makes `batch[j]` raise `IndexError`, aborting the batch (the
enclosing `except` then moves on), with all earlier writes kept. -/
def processBatch {Rec Item P : Type} (dumps : Rec → Option Line)
    (loads : Line → Option Rec) (env : Item → P → Nat → Nat → Rec)
    (batch : List Item) (bnum iBase : Nat) :
    List (Option P) → Nat → SaverState → FS → BatchResult Rec
  | [], _, s, fs => ⟨0, s, fs, []⟩
  | res :: rest, j, s, fs =>
    match batch[j]? with
    | none => ⟨0, s, fs, []⟩
    | some item =>
      match res with
      | none => processBatch dumps loads env batch bnum iBase rest (j + 1) s fs
      | some p =>
        let r := env item p bnum (iBase + j)
        let sv := save_record dumps loads s fs r
        let rest' := processBatch dumps loads env batch bnum iBase rest (j + 1) sv.2.1 sv.2.2
        ⟨(if sv.1 then 1 else 0) + rest'.succ, rest'.saver, rest'.fs, (r, sv.1) :: rest'.writes⟩

/-- Result of a whole run: the value returned by
`scrape_profiles_in_batches` (`successes`), the final saver and disk
states, and the traces of fetch calls and of attempted writes. -/
structure RunResult (Rec U : Type) where
  successes : Nat
  saver : SaverState
  fs : FS
  calls : List (List U)
  writes : List (Rec × Bool)
deriving Repr

/-- The batch loop of lines 143-181 (`for i in range(0, total, batch_size)`),
carrying the absolute index `i` and the running `successful_scrapes`
accumulator `acc`. A raised fetch is caught: the batch contributes nothing
and the loop continues. The `B = 0` branch is unreachable from
`scrape_profiles_in_batches`, which mirrors the `ValueError` Python's
`range` raises for a zero step. -/
def scrapeLoop {Rec Item U P : Type} (dumps : Rec → Option Line)
    (loads : Line → Option Rec) (fetch : List U → Option (List (Option P)))
    (url : Item → U) (env : Item → P → Nat → Nat → Rec) (B : Nat)
    (items : List Item) (i acc : Nat) (s : SaverState) (fs : FS) : RunResult Rec U :=
  match items with
  | [] => ⟨acc, s, fs, [], []⟩
  | x :: xs =>
    if _hB : B = 0 then ⟨acc, s, fs, [], []⟩
    else
      match fetch (((x :: xs).take B).map url) with
      | none =>
        let rest := scrapeLoop dumps loads fetch url env B ((x :: xs).drop B) (i + B) acc s fs
        ⟨rest.successes, rest.saver, rest.fs, ((x :: xs).take B).map url :: rest.calls,
         rest.writes⟩
      | some results =>
        let b := processBatch dumps loads env ((x :: xs).take B) (i / B + 1) i results 0 s fs
        let rest := scrapeLoop dumps loads fetch url env B ((x :: xs).drop B) (i + B)
          (acc + b.succ) b.saver b.fs
        ⟨rest.successes, rest.saver, rest.fs, ((x :: xs).take B).map url :: rest.calls,
         b.writes ++ rest.writes⟩
termination_by items.length
decreasing_by
  all_goals
    simp only [List.length_drop, List.length_cons]
    omega

/-- `scrape_profiles_in_batches` (lines 136-184): `none` models the
`ValueError` raised by `range(0, total, 0)` when `batch_size` is zero. -/
def scrape_profiles_in_batches {Rec Item U P : Type} (dumps : Rec → Option Line)
    (loads : Line → Option Rec) (fetch : List U → Option (List (Option P)))
    (url : Item → U) (env : Item → P → Nat → Nat → Rec) (B : Nat)
    (items : List Item) (s : SaverState) (fs : FS) : Option (RunResult Rec U) :=
  if B = 0 then none
  else some (scrapeLoop dumps loads fetch url env B items 0 0 s fs)

/-- Specification-side description of the envelopes a batch produces
(spec 4.2, step 2): walk the batch items paired with their fetch results
in order, skip empty results, and build an envelope carrying the batch
number and the absolute record index (`base` plus the position in the
batch). -/
def specEnvelopes {Rec Item P : Type} (env : Item → P → Nat → Nat → Rec)
    (bnum base : Nat) : List (Item × Option P) → Nat → List Rec
  | [], _ => []
  | (_, none) :: rest, k => specEnvelopes env bnum base rest (k + 1)
  | (it, some p) :: rest, k =>
    env it p bnum (base + k) :: specEnvelopes env bnum base rest (k + 1)

/-- Serialize a list of records in order (the `json.dumps` calls of the
per-chunk write loops of src/utils.py); `none` is a raised `json.dumps`
exception. -/
def dumpsAll {Rec : Type} (dumps : Rec → Option Line) : List Rec → Option (List Line)
  | [] => some []
  | r :: rest =>
    match dumps r with
    | none => none
    | some l => (dumpsAll dumps rest).map (l :: ·)

/-- The chunk-writing loop of `save_jsonl` (src/utils.py, lines 26-32),
entered when `total > chunk_size`: write records `index .. index+N-1` to
the file numbered `index // chunk_size + 1`, opened with mode `w`.
`none` models a propagating exception: a zero `chunk_size` (the
`ValueError` of Python's `range` with step 0, raised before any write) or
a failing `json.dumps` (the partially written file the real code would
leave behind in that case is not modelled; no claim depends on it). -/
def saveJsonlLoop {Rec : Type} (dumps : Rec → Option Line) (N : Nat) :
    List Rec → Nat → FS → Option FS
  | [], _, fs => some fs
  | r :: rest, index, fs =>
    if N = 0 then none
    else
      match dumpsAll dumps ((r :: rest).take N) with
      | none => none
      | some ls =>
        saveJsonlLoop dumps N ((r :: rest).drop N) (index + N)
          (fs.setFile (index / N + 1) ls)
termination_by recs _ _ => recs.length
decreasing_by
  all_goals
    simp only [List.length_drop, List.length_cons]
    omega

/-- `save_jsonl` (src/utils.py, lines 5-37): create the output directory,
return with no file written when there are no records, loop over chunks
when `total > chunk_size`, and otherwise write all records to the single
file numbered 001. -/
def save_jsonl {Rec : Type} (dumps : Rec → Option Line) (records : List Rec)
    (chunk_size : Nat) (fs : FS) : Option FS :=
  if records.length = 0 then some { fs with dirMade := true }
  else if records.length > chunk_size then
    saveJsonlLoop dumps chunk_size records 0 { fs with dirMade := true }
  else
    match dumpsAll dumps records with
    | none => none
    | some ls => some (FS.setFile { fs with dirMade := true } 1 ls)

/-- The consecutive chunks of size `N` of a list (empty for a zero `N`,
matching the `ValueError` case being unreachable in proofs below). -/
def chunksOf {α : Type} (N : Nat) : List α → List (List α)
  | [] => []
  | x :: xs =>
    if N = 0 then []
    else (x :: xs).take N :: chunksOf N ((x :: xs).drop N)
termination_by l => l.length
decreasing_by
  all_goals
    simp only [List.length_drop, List.length_cons]
    omega

/-- Line consisting of a left brace and a right brace. -/
def braceLine : Line := ['\x7b', '\x7d']

/-- Toy parser accepting exactly the two-brace line. -/
def loadsB : Line → Option Unit := fun l => if l = braceLine then some () else none

/-- Disk holding prefix-matching chunk files 1 and 2 with 10 and 3 valid
lines respectively. -/
def fsB : FS := ⟨true, [(1, List.replicate 10 braceLine), (2, List.replicate 3 braceLine)]⟩

/-- The per-file loop succeeds exactly on files all of whose lines are
valid, and then counts the non-blank ones. -/
theorem verifyFileLines_eq {Rec : Type} (loads : Line → Option Rec) (ls : List Line) :
    verifyFileLines loads ls =
      if ∀ l ∈ ls, lineOK loads l = true then some (countNonBlank ls) else none := by
  induction ls with
  | nil => simp [verifyFileLines, countNonBlank]
  | cons l rest ih =>
    cases hb : (stripLine l).isEmpty with
    | true =>
      have hl : lineOK loads l = true := by simp [lineOK, hb]
      have hc : countNonBlank (l :: rest) = countNonBlank rest := by
        simp [countNonBlank, List.filter_cons, hb]
      simp [verifyFileLines, hb, ih, hc, List.forall_mem_cons, hl]
    | false =>
      cases hload : loads (stripLine l) with
      | none =>
        have hl : lineOK loads l = false := by simp [lineOK, hb, hload]
        simp [verifyFileLines, hb, hload, List.forall_mem_cons, hl]
      | some v =>
        cases hbr : startsBrace (stripLine l) && endsBrace (stripLine l) with
        | true =>
          have hl : lineOK loads l = true := by simp [lineOK, hb, hload, hbr]
          have hc : countNonBlank (l :: rest) = countNonBlank rest + 1 := by
            simp [countNonBlank, List.filter_cons, hb]
          by_cases hall : ∀ x ∈ rest, lineOK loads x = true
          · simp [verifyFileLines, hb, hload, hbr, ih, hall, List.forall_mem_cons, hl, hc]
          · simp [verifyFileLines, hb, hload, hbr, ih, hall, List.forall_mem_cons]
        | false =>
          have hl : lineOK loads l = false := by simp [lineOK, hb, hload, hbr]
          simp [verifyFileLines, hb, hload, hbr, List.forall_mem_cons, hl]

/-- The outer loop succeeds exactly when every line of every file is
valid, and then yields the total non-blank line count. -/
theorem verifyFilesTotal_eq {Rec : Type} (loads : Line → Option Rec)
    (files : List (Nat × List Line)) :
    verifyFilesTotal loads files =
      if ∀ p ∈ files, ∀ l ∈ p.2, lineOK loads l = true then
        some ((files.map (fun p => countNonBlank p.2)).sum)
      else none := by
  induction files with
  | nil => simp [verifyFilesTotal]
  | cons p rest ih =>
    rw [show verifyFilesTotal loads (p :: rest) =
        (match verifyFileLines loads p.2 with
         | none => none
         | some n => (verifyFilesTotal loads rest).map (n + ·)) from rfl,
      verifyFileLines_eq, ih]
    by_cases hp : ∀ l ∈ p.2, lineOK loads l = true
    · rw [if_pos hp]
      by_cases hrest : ∀ q ∈ rest, ∀ l ∈ q.2, lineOK loads l = true
      · rw [if_pos hrest]
        have hall : ∀ q ∈ p :: rest, ∀ l ∈ q.2, lineOK loads l = true := by
          rw [List.forall_mem_cons]; exact ⟨hp, hrest⟩
        rw [if_pos hall]
        simp
      · rw [if_neg hrest]
        have hall : ¬ ∀ q ∈ p :: rest, ∀ l ∈ q.2, lineOK loads l = true := by
          rw [List.forall_mem_cons]; exact fun h => hrest h.2
        rw [if_neg hall]
        rfl
    · rw [if_neg hp]
      have hall : ¬ ∀ q ∈ p :: rest, ∀ l ∈ q.2, lineOK loads l = true := by
        rw [List.forall_mem_cons]; exact fun h => hp h.1
      rw [if_neg hall]

/-- The verifier succeeds (returns without raising) exactly when every
non-blank line of every chunk file parses and is brace-delimited and the
total non-blank line count equals `expected_total`; sorting the files is a
permutation, so both conditions transfer to the unsorted file list. -/
theorem verify_jsonl_integrity_iff {Rec : Type} (loads : Line → Option Rec)
    (fs : FS) (expected_total : Nat) :
    verify_jsonl_integrity loads fs expected_total = true ↔
      ((∀ p ∈ fs.files, ∀ l ∈ p.2, lineOK loads l = true) ∧
        (fs.files.map (fun p => countNonBlank p.2)).sum = expected_total) := by
  have hperm : List.Perm (sortFiles fs.files) fs.files := List.perm_insertionSort _ _
  have hmem : (∀ p ∈ sortFiles fs.files, ∀ l ∈ p.2, lineOK loads l = true) ↔
      ∀ p ∈ fs.files, ∀ l ∈ p.2, lineOK loads l = true := by
    constructor
    · intro h p hp
      exact h p (hperm.mem_iff.mpr hp)
    · intro h p hp
      exact h p (hperm.mem_iff.mp hp)
  have hsum : ((sortFiles fs.files).map (fun p => countNonBlank p.2)).sum =
      (fs.files.map (fun p => countNonBlank p.2)).sum :=
    List.Perm.sum_eq (hperm.map _)
  unfold verify_jsonl_integrity
  rw [verifyFilesTotal_eq]
  by_cases hall : ∀ p ∈ sortFiles fs.files, ∀ l ∈ p.2, lineOK loads l = true
  · rw [if_pos hall]
    simp only [beq_iff_eq]
    constructor
    · intro h
      exact ⟨hmem.mp hall, by rw [← hsum]; exact h⟩
    · intro h
      rw [hsum]
      exact h.2
  · rw [if_neg hall]
    constructor
    · intro h
      exact absurd h (by simp)
    · intro h
      exact absurd (hmem.mpr h.1) hall

/-- Reading a file back after writing it yields the written contents, at
the level of the underlying association list. -/
theorem getFileList_setFileList (i : Nat) (ls : List Line)
    (files : List (Nat × List Line)) :
    getFileList i (setFileList i ls files) = some ls := by
  induction files with
  | nil => simp [setFileList, getFileList]
  | cons q rest ih =>
    by_cases hq : q.1 = i
    · simp [setFileList, getFileList, hq]
    · simp [setFileList, getFileList, hq, ih]

/-- Reading a file back after writing it yields the written contents. -/
theorem getFile_setFile (fs : FS) (i : Nat) (ls : List Line) :
    (fs.setFile i ls).getFile i = some ls :=
  getFileList_setFileList i ls fs.files

/-- Writing a key that is absent from the association list appends the
new file at the end. -/
theorem setFileList_of_not_mem (i : Nat) (ls : List Line) :
    ∀ files : List (Nat × List Line), (∀ q ∈ files, q.1 ≠ i) →
      setFileList i ls files = files ++ [(i, ls)] := by
  intro files
  induction files with
  | nil => intro _; rfl
  | cons q rest ih =>
    intro h
    have hq : q.1 ≠ i := h q (by simp)
    simp only [setFileList, if_neg hq, List.cons_append, List.cons.injEq, true_and]
    exact ih (fun p hp => h p (by simp [hp]))

/-- A total serializer never fails, so serializing a chunk yields exactly
the mapped lines. -/
theorem dumpsAll_total {Rec : Type} (dumpsF : Rec → Line) :
    ∀ records : List Rec,
      dumpsAll (fun r => some (dumpsF r)) records = some (records.map dumpsF) := by
  intro records
  induction records with
  | nil => rfl
  | cons r rest ih => simp [dumpsAll, ih]

/-- Ceiling-division recurrence: removing one full-or-partial batch of
size `B` from `L ≥ 1` items lowers the batch count by one. -/
theorem ceil_div_step (L B : Nat) (hL : 1 ≤ L) (hB : 1 ≤ B) :
    (L + B - 1) / B = (L - B + B - 1) / B + 1 := by
  rcases le_or_lt L B with h | h
  · have h1 : L - B = 0 := Nat.sub_eq_zero_of_le h
    rw [h1, Nat.zero_add]
    have h2 : (B - 1) / B = 0 := Nat.div_eq_of_lt (by omega)
    rw [h2]
    have h3 : L + B - 1 = (L - 1) + B := by omega
    rw [h3, Nat.add_div_right _ (by omega : 0 < B)]
    have h4 : (L - 1) / B = 0 := Nat.div_eq_of_lt (by omega)
    omega
  · have h2 : L - B + B - 1 = L - 1 := by omega
    have h3 : L + B - 1 = (L - 1) + B := by omega
    rw [h2, h3, Nat.add_div_right _ (by omega : 0 < B)]

/-- The number of chunks of size `N` of `L` elements is ceil(L / N). -/
theorem chunksOf_length {α : Type} (N : Nat) (hN : N ≠ 0) :
    ∀ (n : Nat) (l : List α), l.length ≤ n →
      (chunksOf N l).length = (l.length + N - 1) / N := by
  intro n
  induction n with
  | zero =>
    intro l hl
    have hnil : l = [] := List.length_eq_zero.mp (Nat.le_zero.mp hl)
    subst hnil
    have hz : (N - 1) / N = 0 := Nat.div_eq_of_lt (by omega)
    simp [chunksOf, hz]
  | succ m ih =>
    intro l hl
    cases l with
    | nil =>
      have hz : (N - 1) / N = 0 := Nat.div_eq_of_lt (by omega)
      simp [chunksOf, hz]
    | cons x xs =>
      have hdrop : ((x :: xs).drop N).length ≤ m := by
        simp only [List.length_drop, List.length_cons]
        simp only [List.length_cons] at hl
        omega
      rw [chunksOf, if_neg hN]
      rw [List.length_cons, ih ((x :: xs).drop N) hdrop, List.length_drop]
      exact (ceil_div_step (x :: xs).length N (by simp) (by omega)).symm

/-- Every chunk of size `N` of a list holds between 1 and `N` elements. -/
theorem chunksOf_sizes {α : Type} (N : Nat) (hN : N ≠ 0) :
    ∀ (n : Nat) (l : List α), l.length ≤ n →
      ∀ c ∈ chunksOf N l, 1 ≤ c.length ∧ c.length ≤ N := by
  intro n
  induction n with
  | zero =>
    intro l hl
    have hnil : l = [] := List.length_eq_zero.mp (Nat.le_zero.mp hl)
    subst hnil
    simp [chunksOf]
  | succ m ih =>
    intro l hl
    cases l with
    | nil => simp [chunksOf]
    | cons x xs =>
      have hdrop : ((x :: xs).drop N).length ≤ m := by
        simp only [List.length_drop, List.length_cons]
        simp only [List.length_cons] at hl
        omega
      rw [chunksOf, if_neg hN]
      intro c hc
      rcases List.mem_cons.mp hc with rfl | hc
      · rw [List.length_take]
        constructor
        · simp only [List.length_cons]
          omega
        · omega
      · exact ih ((x :: xs).drop N) hdrop c hc

/-- The chunk sizes of a list sum to its length. -/
theorem chunksOf_sum_lengths {α : Type} (N : Nat) (hN : N ≠ 0) :
    ∀ (n : Nat) (l : List α), l.length ≤ n →
      ((chunksOf N l).map List.length).sum = l.length := by
  intro n
  induction n with
  | zero =>
    intro l hl
    have hnil : l = [] := List.length_eq_zero.mp (Nat.le_zero.mp hl)
    subst hnil
    simp [chunksOf]
  | succ m ih =>
    intro l hl
    cases l with
    | nil => simp [chunksOf]
    | cons x xs =>
      have hdrop : ((x :: xs).drop N).length ≤ m := by
        simp only [List.length_drop, List.length_cons]
        simp only [List.length_cons] at hl
        omega
      rw [chunksOf, if_neg hN]
      rw [List.map_cons, List.sum_cons, ih ((x :: xs).drop N) hdrop]
      rw [List.length_take, List.length_drop]
      simp only [List.length_cons]
      omega

/-- A nonempty list has at least one chunk. -/
theorem chunksOf_ne_nil {α : Type} (N : Nat) (hN : N ≠ 0) (x : α) (xs : List α) :
    chunksOf N (x :: xs) ≠ [] := by
  rw [chunksOf, if_neg hN]
  simp

/-- Every chunk but the last holds exactly `N` elements. -/
theorem chunksOf_dropLast {α : Type} (N : Nat) (hN : N ≠ 0) :
    ∀ (n : Nat) (l : List α), l.length ≤ n →
      ∀ c ∈ (chunksOf N l).dropLast, c.length = N := by
  intro n
  induction n with
  | zero =>
    intro l hl
    have hnil : l = [] := List.length_eq_zero.mp (Nat.le_zero.mp hl)
    subst hnil
    simp [chunksOf]
  | succ m ih =>
    intro l hl
    cases l with
    | nil => simp [chunksOf]
    | cons x xs =>
      have hdrop : ((x :: xs).drop N).length ≤ m := by
        simp only [List.length_drop, List.length_cons]
        simp only [List.length_cons] at hl
        omega
      rw [chunksOf, if_neg hN]
      cases hck : chunksOf N ((x :: xs).drop N) with
      | nil => simp
      | cons c0 cs =>
        intro c hc
        rw [List.dropLast_cons₂] at hc
        rcases List.mem_cons.mp hc with rfl | hc
        · -- the head chunk is full: the drop is nonempty, so N < length
          have hne : (x :: xs).drop N ≠ [] := by
            intro hdn
            rw [hdn] at hck
            simp [chunksOf] at hck
          have hlen : N < (x :: xs).length := by
            by_contra hcon
            exact hne (List.eq_nil_of_length_eq_zero
              (by rw [List.length_drop]; omega))
          rw [List.length_take]
          omega
        · rw [← hck] at hc
          exact ih ((x :: xs).drop N) hdrop c hc

/-- Dropping the last element commutes with mapping. -/
theorem dropLast_map_eq {α β : Type} (f : α → β) :
    ∀ l : List α, l.dropLast.map f = (l.map f).dropLast
  | [] => rfl
  | [_] => rfl
  | a :: b :: t => by
    simp only [List.dropLast_cons₂, List.map_cons]
    rw [dropLast_map_eq f (b :: t)]
    simp [List.dropLast_cons₂]

/-- The chunk-writing loop with a total serializer: starting from a disk
whose files all have indices below the next chunk number, it succeeds and
appends, in order, one file per chunk of the serialized records. -/
theorem saveJsonlLoop_files {Rec : Type} (dumpsF : Rec → Line) (N : Nat) (hN : N ≠ 0) :
    ∀ (n : Nat) (records : List Rec), records.length ≤ n →
      ∀ (index : Nat) (fs : FS), (∀ q ∈ fs.files, q.1 < index / N + 1) →
        ∃ fs', saveJsonlLoop (fun r => some (dumpsF r)) N records index fs = some fs' ∧
          fs'.dirMade = fs.dirMade ∧
          fs'.files.map (fun q => q.2) =
            fs.files.map (fun q => q.2) ++ chunksOf N (records.map dumpsF) := by
  intro n
  induction n with
  | zero =>
    intro records hl index fs _
    have hnil : records = [] := List.length_eq_zero.mp (Nat.le_zero.mp hl)
    subst hnil
    exact ⟨fs, by rw [saveJsonlLoop], rfl, by simp [chunksOf]⟩
  | succ m ih =>
    intro records hl index fs hkeys
    cases records with
    | nil => exact ⟨fs, by rw [saveJsonlLoop], rfl, by simp [chunksOf]⟩
    | cons r rest =>
      have hdrop : ((r :: rest).drop N).length ≤ m := by
        simp only [List.length_drop, List.length_cons]
        simp only [List.length_cons] at hl
        omega
      have hd : dumpsAll (fun x => some (dumpsF x)) ((r :: rest).take N) =
          some (((r :: rest).take N).map dumpsF) := dumpsAll_total dumpsF _
      have hknew : ∀ q ∈ (fs.setFile (index / N + 1)
          (((r :: rest).take N).map dumpsF)).files, q.1 < (index + N) / N + 1 := by
        intro q hq
        have hdiv : (index + N) / N = index / N + 1 :=
          Nat.add_div_right index (by omega)
        rw [hdiv]
        rw [FS.setFile, setFileList_of_not_mem _ _ fs.files
          (fun p hp => by have := hkeys p hp; omega)] at hq
        rcases List.mem_append.mp hq with hq | hq
        · have h2 := hkeys q hq
          omega
        · simp only [List.mem_singleton] at hq
          subst hq
          exact (by omega : index / N + 1 < index / N + 1 + 1)
      obtain ⟨fs', hrun, hdir, hfiles⟩ := ih ((r :: rest).drop N) hdrop (index + N)
        (fs.setFile (index / N + 1) (((r :: rest).take N).map dumpsF)) hknew
      refine ⟨fs', ?_, ?_, ?_⟩
      · rw [saveJsonlLoop, if_neg hN, hd]
        exact hrun
      · rw [hdir, FS.setFile]
      · rw [hfiles, FS.setFile]
        simp only
        rw [setFileList_of_not_mem _ _ fs.files
          (fun p hp => by have := hkeys p hp; omega)]
        rw [List.map_append]
        rw [show chunksOf N ((r :: rest).map dumpsF) =
            ((r :: rest).map dumpsF).take N ::
              chunksOf N (((r :: rest).map dumpsF).drop N) from by
          rw [List.map_cons, chunksOf, if_neg hN]]
        rw [List.map_take, List.map_drop]
        simp [List.append_assoc]

/-- `save_jsonl` with a total serializer on a fresh directory satisfies
the chunk law: ceil(R / N) files, every file holding between 1 and `N`
lines, every non-final file exactly `N`, and the line counts summing to
`R`. -/
theorem save_jsonl_chunk_law {Rec : Type} (dumpsF : Rec → Line)
    (records : List Rec) (N : Nat) (hN : 0 < N) (hR : 0 < records.length) :
    ∃ fs', save_jsonl (fun r => some (dumpsF r)) records N emptyFS = some fs' ∧
      fs'.files.map (fun q => q.2) = chunksOf N (records.map dumpsF) ∧
      fs'.numFiles = (records.length + N - 1) / N ∧
      fs'.totalLines = records.length ∧
      (∀ p ∈ fs'.files, 1 ≤ p.2.length ∧ p.2.length ≤ N) ∧
      (∀ p ∈ fs'.files.dropLast, p.2.length = N) := by
  have hmaplen : (records.map dumpsF).length = records.length := List.length_map _ _
  have hcons : ∃ fs', save_jsonl (fun r => some (dumpsF r)) records N emptyFS = some fs' ∧
      fs'.files.map (fun q => q.2) = chunksOf N (records.map dumpsF) := by
    unfold save_jsonl
    rw [if_neg (by omega)]
    by_cases hbig : records.length > N
    · rw [if_pos hbig]
      obtain ⟨fs', hrun, _, hfiles⟩ := saveJsonlLoop_files dumpsF N (by omega)
        records.length records le_rfl 0 { emptyFS with dirMade := true }
        (by intro q hq; simp [emptyFS] at hq)
      refine ⟨fs', hrun, ?_⟩
      rw [hfiles]
      simp [emptyFS]
    · rw [if_neg hbig]
      rw [dumpsAll_total dumpsF records]
      refine ⟨_, rfl, ?_⟩
      cases records with
      | nil => simp at hR
      | cons r rest =>
        rw [show chunksOf N ((r :: rest).map dumpsF) =
            ((r :: rest).map dumpsF).take N ::
              chunksOf N (((r :: rest).map dumpsF).drop N) from by
          rw [List.map_cons, chunksOf, if_neg (by omega : ¬ N = 0)]]
        have htake : ((r :: rest).map dumpsF).take N = (r :: rest).map dumpsF :=
          List.take_of_length_le (by rw [hmaplen]; omega)
        have hdropn : ((r :: rest).map dumpsF).drop N = [] :=
          List.eq_nil_of_length_eq_zero (by rw [List.length_drop, hmaplen]; omega)
        rw [htake, hdropn]
        simp [FS.setFile, emptyFS, setFileList, chunksOf]
  obtain ⟨fs', hrun, hfiles⟩ := hcons
  refine ⟨fs', hrun, hfiles, ?_, ?_, ?_, ?_⟩
  · rw [FS.numFiles, show fs'.files.length = (fs'.files.map (fun q => q.2)).length from
      (List.length_map _ _).symm, hfiles, chunksOf_length N (by omega)
        (records.map dumpsF).length _ le_rfl, hmaplen]
  · rw [FS.totalLines, show fs'.files.map (fun p => p.2.length) =
        (fs'.files.map (fun q => q.2)).map List.length from by
      rw [List.map_map]; rfl, hfiles,
      chunksOf_sum_lengths N (by omega) (records.map dumpsF).length _ le_rfl, hmaplen]
  · intro p hp
    have : p.2 ∈ chunksOf N (records.map dumpsF) := by
      rw [← hfiles]
      exact List.mem_map_of_mem _ hp
    exact chunksOf_sizes N (by omega) (records.map dumpsF).length _ le_rfl p.2 this
  · intro p hp
    have : p.2 ∈ (chunksOf N (records.map dumpsF)).dropLast := by
      rw [← hfiles, ← dropLast_map_eq]
      exact List.mem_map_of_mem _ hp
    exact chunksOf_dropLast N (by omega) (records.map dumpsF).length _ le_rfl p.2 this

/-- Folding the line-joining step over a list with any tail appends the
tail after the file text. -/
theorem fileText_foldr (ls : List Line) (b : Line) :
    ls.foldr (fun l acc => l ++ '\n' :: acc) b = fileText ls ++ b := by
  induction ls with
  | nil => simp [fileText]
  | cons a as ih => simp [fileText, ih, List.append_assoc]

/-- Appending one line to a file extends its raw text by that line
followed by a single newline. -/
theorem fileText_append (ls : List Line) (l : Line) :
    fileText (ls ++ [l]) = fileText ls ++ l ++ ['\n'] := by
  rw [fileText, List.foldr_append, fileText_foldr]
  simp [fileText, List.append_assoc]

/-- A successful `save_record` increments `total_records_saved` by one; a
failed one leaves it unchanged. -/
theorem save_record_total {Rec : Type} (dumps : Rec → Option Line)
    (loads : Line → Option Rec) (s : SaverState) (fs : FS) (r : Rec) :
    (save_record dumps loads s fs r).2.1.total_records_saved =
      s.total_records_saved + (if (save_record dumps loads s fs r).1 then 1 else 0) := by
  unfold save_record
  by_cases hv : validate_jsonl_record dumps loads r = false
  · simp [hv]
  · by_cases hroll : s.current_file_records ≥ s.chunk_size
    · cases hd : dumps r with
      | none => simp [hv, hroll, hd, startNewFile]
      | some line => simp [hv, hroll, hd, startNewFile]
    · cases hd : dumps r with
      | none => simp [hv, hroll, hd]
      | some line =>
        cases ho : s.openFile with
        | none => simp [hv, hroll, hd, ho]
        | some j => simp [hv, hroll, hd, ho]

/-- The batch success count equals the total-records delta of the saver
across the batch. -/
theorem processBatch_total {Rec Item P : Type} (dumps : Rec → Option Line)
    (loads : Line → Option Rec) (env : Item → P → Nat → Nat → Rec)
    (batch : List Item) (bnum iBase : Nat) :
    ∀ (results : List (Option P)) (j : Nat) (s : SaverState) (fs : FS),
      (processBatch dumps loads env batch bnum iBase results j s fs).saver.total_records_saved =
        s.total_records_saved +
          (processBatch dumps loads env batch bnum iBase results j s fs).succ := by
  intro results
  induction results with
  | nil => intro j s fs; simp [processBatch]
  | cons res rest ih =>
    intro j s fs
    cases hg : batch[j]? with
    | none => simp [processBatch, hg]
    | some item =>
      cases res with
      | none => simp [processBatch, hg, ih]
      | some p =>
        have hsv := save_record_total dumps loads s fs (env item p bnum (iBase + j))
        have hr := ih (j + 1) (save_record dumps loads s fs (env item p bnum (iBase + j))).2.1
          (save_record dumps loads s fs (env item p bnum (iBase + j))).2.2
        simp only [processBatch, hg]
        cases hok : (save_record dumps loads s fs (env item p bnum (iBase + j))).1 with
        | true => simp [hok] at hsv ⊢; omega
        | false => simp [hok] at hsv ⊢; omega

/-- The batch success count is the number of writes whose `save_record`
call reported success. -/
theorem processBatch_succ_eq_filter {Rec Item P : Type} (dumps : Rec → Option Line)
    (loads : Line → Option Rec) (env : Item → P → Nat → Nat → Rec)
    (batch : List Item) (bnum iBase : Nat) :
    ∀ (results : List (Option P)) (j : Nat) (s : SaverState) (fs : FS),
      (processBatch dumps loads env batch bnum iBase results j s fs).succ =
        ((processBatch dumps loads env batch bnum iBase results j s fs).writes.filter
          (fun w => w.2)).length := by
  intro results
  induction results with
  | nil => intro j s fs; simp [processBatch]
  | cons res rest ih =>
    intro j s fs
    cases hg : batch[j]? with
    | none => simp [processBatch, hg]
    | some item =>
      cases res with
      | none => simp [processBatch, hg, ih]
      | some p =>
        simp only [processBatch, hg]
        cases hok : (save_record dumps loads s fs (env item p bnum (iBase + j))).1 with
        | true =>
          simp [hok, List.filter_cons, ih]
          omega
        | false => simp [hok, List.filter_cons, ih]

/-- A batch whose fetch raises is skipped: the run records the failed
call and continues with the remaining items, with the success counter,
saver and disk untouched. -/
theorem scrapeLoop_fetch_fail {Rec Item U P : Type} (dumps : Rec → Option Line)
    (loads : Line → Option Rec) (fetch : List U → Option (List (Option P)))
    (url : Item → U) (env : Item → P → Nat → Nat → Rec) (B : Nat)
    (x : Item) (xs : List Item) (i acc : Nat) (s : SaverState) (fs : FS)
    (hB : B ≠ 0) (hf : fetch (((x :: xs).take B).map url) = none) :
    scrapeLoop dumps loads fetch url env B (x :: xs) i acc s fs =
      { scrapeLoop dumps loads fetch url env B ((x :: xs).drop B) (i + B) acc s fs with
        calls := ((x :: xs).take B).map url ::
          (scrapeLoop dumps loads fetch url env B ((x :: xs).drop B) (i + B) acc s fs).calls } := by
  rw [scrapeLoop]
  rw [dif_neg hB, hf]

/-- When the fetched result list is no longer than the batch, the records
passed to `save_record` are exactly the envelopes of the non-empty
results, in order. -/
theorem processBatch_writes {Rec Item P : Type} (dumps : Rec → Option Line)
    (loads : Line → Option Rec) (env : Item → P → Nat → Nat → Rec)
    (batch : List Item) (bnum iBase : Nat) :
    ∀ (results : List (Option P)) (j : Nat) (s : SaverState) (fs : FS),
      j + results.length ≤ batch.length →
      (processBatch dumps loads env batch bnum iBase results j s fs).writes.map Prod.fst =
        specEnvelopes env bnum iBase ((batch.drop j).zip results) j := by
  intro results
  induction results with
  | nil =>
    intro j s fs hj
    simp [processBatch, specEnvelopes]
  | cons res rest ih =>
    intro j s fs hj
    have hjlt : j < batch.length := by
      simp only [List.length_cons] at hj
      omega
    have hget : batch[j]? = some batch[j] := List.getElem?_eq_getElem hjlt
    have hdropj : batch.drop j = batch[j] :: batch.drop (j + 1) :=
      List.drop_eq_getElem_cons hjlt
    have hrest : (j + 1) + rest.length ≤ batch.length := by
      simp only [List.length_cons] at hj
      omega
    cases res with
    | none =>
      rw [hdropj, List.zip_cons_cons]
      simp only [processBatch, hget]
      exact ih (j + 1) s fs hrest
    | some p =>
      rw [hdropj, List.zip_cons_cons]
      simp only [processBatch, hget, List.map_cons]
      rw [show specEnvelopes env bnum iBase
          ((batch[j], some p) :: (batch.drop (j + 1)).zip rest) j =
        env batch[j] p bnum (iBase + j) ::
          specEnvelopes env bnum iBase ((batch.drop (j + 1)).zip rest) (j + 1) from rfl]
      exact congrArg (env batch[j] p bnum (iBase + j) :: ·) (ih (j + 1) _ _ hrest)

/-- One successful-fetch step of the batch loop: the batch is processed,
the call is recorded, and the loop continues on the remaining items. -/
theorem scrapeLoop_fetch_some {Rec Item U P : Type} (dumps : Rec → Option Line)
    (loads : Line → Option Rec) (fetch : List U → Option (List (Option P)))
    (url : Item → U) (env : Item → P → Nat → Nat → Rec) (B : Nat)
    (x : Item) (xs : List Item) (i acc : Nat) (s : SaverState) (fs : FS)
    (results : List (Option P)) (hB : B ≠ 0)
    (hf : fetch (((x :: xs).take B).map url) = some results) :
    scrapeLoop dumps loads fetch url env B (x :: xs) i acc s fs =
      { scrapeLoop dumps loads fetch url env B ((x :: xs).drop B) (i + B)
          (acc + (processBatch dumps loads env ((x :: xs).take B) (i / B + 1) i
            results 0 s fs).succ)
          (processBatch dumps loads env ((x :: xs).take B) (i / B + 1) i
            results 0 s fs).saver
          (processBatch dumps loads env ((x :: xs).take B) (i / B + 1) i
            results 0 s fs).fs with
        calls := ((x :: xs).take B).map url ::
          (scrapeLoop dumps loads fetch url env B ((x :: xs).drop B) (i + B)
            (acc + (processBatch dumps loads env ((x :: xs).take B) (i / B + 1) i
              results 0 s fs).succ)
            (processBatch dumps loads env ((x :: xs).take B) (i / B + 1) i
              results 0 s fs).saver
            (processBatch dumps loads env ((x :: xs).take B) (i / B + 1) i
              results 0 s fs).fs).calls,
        writes := (processBatch dumps loads env ((x :: xs).take B) (i / B + 1) i
            results 0 s fs).writes ++
          (scrapeLoop dumps loads fetch url env B ((x :: xs).drop B) (i + B)
            (acc + (processBatch dumps loads env ((x :: xs).take B) (i / B + 1) i
              results 0 s fs).succ)
            (processBatch dumps loads env ((x :: xs).take B) (i / B + 1) i
              results 0 s fs).saver
            (processBatch dumps loads env ((x :: xs).take B) (i / B + 1) i
              results 0 s fs).fs).writes } := by
  rw [scrapeLoop, dif_neg hB, hf]

/-- The fetch-call trace of the loop: one call per batch, so exactly
ceil(L / B) calls, each with at most `B` identifiers, jointly listing the
identifiers of all items in order. -/
theorem scrapeLoop_calls {Rec Item U P : Type} (dumps : Rec → Option Line)
    (loads : Line → Option Rec) (fetch : List U → Option (List (Option P)))
    (url : Item → U) (env : Item → P → Nat → Nat → Rec) (B : Nat) (hB : B ≠ 0) :
    ∀ (n : Nat) (items : List Item), items.length ≤ n →
      ∀ (i acc : Nat) (s : SaverState) (fs : FS),
        (scrapeLoop dumps loads fetch url env B items i acc s fs).calls.length =
            (items.length + B - 1) / B ∧
          (∀ c ∈ (scrapeLoop dumps loads fetch url env B items i acc s fs).calls,
            c.length ≤ B) ∧
          (scrapeLoop dumps loads fetch url env B items i acc s fs).calls.join =
            items.map url := by
  intro n
  induction n with
  | zero =>
    intro items hlen i acc s fs
    have hnil : items = [] := List.length_eq_zero.mp (Nat.le_zero.mp hlen)
    subst hnil
    have hz : (B - 1) / B = 0 := Nat.div_eq_of_lt (by omega)
    simp [scrapeLoop, hz]
  | succ m ih =>
    intro items hlen i acc s fs
    cases items with
    | nil =>
      have hz : (B - 1) / B = 0 := Nat.div_eq_of_lt (by omega)
      simp [scrapeLoop, hz]
    | cons x xs =>
      have hdrop : ((x :: xs).drop B).length ≤ m := by
        simp only [List.length_drop, List.length_cons]
        simp only [List.length_cons] at hlen
        omega
      have hstep : ((x :: xs).length + B - 1) / B =
          (((x :: xs).drop B).length + B - 1) / B + 1 := by
        rw [List.length_drop]
        exact ceil_div_step (x :: xs).length B (by simp) (by omega)
      have htake : (((x :: xs).take B).map url).length ≤ B := by
        rw [List.length_map, List.length_take]
        omega
      have hsplit : (((x :: xs).take B).map url) ++ ((x :: xs).drop B).map url =
          (x :: xs).map url := by
        rw [← List.map_append, List.take_append_drop]
      cases hf : fetch (((x :: xs).take B).map url) with
      | none =>
        obtain ⟨hl, hbnd, hj⟩ := ih ((x :: xs).drop B) hdrop (i + B) acc s fs
        rw [scrapeLoop_fetch_fail dumps loads fetch url env B x xs i acc s fs hB hf]
        refine ⟨?_, ?_, ?_⟩
        · simpa [hl] using hstep.symm
        · intro c hc
          rcases List.mem_cons.mp hc with rfl | hc
          · exact htake
          · exact hbnd c hc
        · simpa [hj] using hsplit
      | some results =>
        obtain ⟨hl, hbnd, hj⟩ := ih ((x :: xs).drop B) hdrop (i + B)
          (acc + (processBatch dumps loads env ((x :: xs).take B) (i / B + 1) i
            results 0 s fs).succ)
          (processBatch dumps loads env ((x :: xs).take B) (i / B + 1) i results 0 s fs).saver
          (processBatch dumps loads env ((x :: xs).take B) (i / B + 1) i results 0 s fs).fs
        rw [scrapeLoop_fetch_some dumps loads fetch url env B x xs i acc s fs results hB hf]
        refine ⟨?_, ?_, ?_⟩
        · simpa [hl] using hstep.symm
        · intro c hc
          rcases List.mem_cons.mp hc with rfl | hc
          · exact htake
          · exact hbnd c hc
        · simpa [hj] using hsplit

/-- Across the whole loop, the returned success count equals the
total-records delta of the saver. -/
theorem scrapeLoop_total {Rec Item U P : Type} (dumps : Rec → Option Line)
    (loads : Line → Option Rec) (fetch : List U → Option (List (Option P)))
    (url : Item → U) (env : Item → P → Nat → Nat → Rec) (B : Nat) :
    ∀ (n : Nat) (items : List Item), items.length ≤ n →
      ∀ (i acc : Nat) (s : SaverState) (fs : FS),
        (scrapeLoop dumps loads fetch url env B items i acc s fs).successes +
            s.total_records_saved =
          acc +
            (scrapeLoop dumps loads fetch url env B items i acc s fs).saver.total_records_saved := by
  intro n
  induction n with
  | zero =>
    intro items hlen i acc s fs
    have hnil : items = [] := List.length_eq_zero.mp (Nat.le_zero.mp hlen)
    subst hnil
    simp [scrapeLoop]
  | succ m ih =>
    intro items hlen i acc s fs
    cases items with
    | nil => simp [scrapeLoop]
    | cons x xs =>
      by_cases hB : B = 0
      · rw [scrapeLoop, dif_pos hB]
      · have hdrop : ((x :: xs).drop B).length ≤ m := by
          simp only [List.length_drop, List.length_cons]
          simp only [List.length_cons] at hlen
          omega
        cases hf : fetch (((x :: xs).take B).map url) with
        | none =>
          have h1 := ih ((x :: xs).drop B) hdrop (i + B) acc s fs
          rw [scrapeLoop, dif_neg hB, hf]
          exact h1
        | some results =>
          have hpb := processBatch_total dumps loads env ((x :: xs).take B) (i / B + 1) i
            results 0 s fs
          have h1 := ih ((x :: xs).drop B) hdrop (i + B)
            (acc + (processBatch dumps loads env ((x :: xs).take B) (i / B + 1) i
              results 0 s fs).succ)
            (processBatch dumps loads env ((x :: xs).take B) (i / B + 1) i results 0 s fs).saver
            (processBatch dumps loads env ((x :: xs).take B) (i / B + 1) i results 0 s fs).fs
          rw [scrapeLoop, dif_neg hB, hf]
          show (scrapeLoop dumps loads fetch url env B ((x :: xs).drop B) (i + B)
              (acc + (processBatch dumps loads env ((x :: xs).take B) (i / B + 1) i
                results 0 s fs).succ)
              (processBatch dumps loads env ((x :: xs).take B) (i / B + 1) i
                results 0 s fs).saver
              (processBatch dumps loads env ((x :: xs).take B) (i / B + 1) i
                results 0 s fs).fs).successes + s.total_records_saved =
            acc + (scrapeLoop dumps loads fetch url env B ((x :: xs).drop B) (i + B)
              (acc + (processBatch dumps loads env ((x :: xs).take B) (i / B + 1) i
                results 0 s fs).succ)
              (processBatch dumps loads env ((x :: xs).take B) (i / B + 1) i
                results 0 s fs).saver
              (processBatch dumps loads env ((x :: xs).take B) (i / B + 1) i
                results 0 s fs).fs).saver.total_records_saved
          omega

/-- Claim C4: `verify_jsonl_integrity` succeeds if and only if every
non-blank line of every chunk file parses as JSON and is brace-delimited
and the non-blank line counts sum to `expected_total`; in particular on a
directory with files of 10 and 3 valid lines it succeeds for
`expected_total = 13` and raises for `expected_total = 14`. -/
theorem c4_verify_succeeds_iff :
    (∀ (Rec : Type) (loads : Line → Option Rec) (fs : FS) (expected_total : Nat),
      verify_jsonl_integrity loads fs expected_total = true ↔
        ((∀ p ∈ fs.files, ∀ l ∈ p.2, lineOK loads l = true) ∧
          (fs.files.map (fun p => countNonBlank p.2)).sum = expected_total)) ∧
    verify_jsonl_integrity loadsB fsB 13 = true ∧
    verify_jsonl_integrity loadsB fsB 14 = false :=
  ⟨fun _ loads fs e => verify_jsonl_integrity_iff loads fs e, by decide, by decide⟩

/-- Claim C5: a batch whose fetch raises is caught — the loop records the
failed call, adds zero to the success counter and continues with the
remaining batches unchanged — and the value `scrape_profiles_in_batches`
returns is exactly the number of records whose write reported success
(the saver's `total_records_saved` delta, which successful writes alone
increment). -/
theorem c5_fetch_failure_tolerated {Rec Item U P : Type} (dumps : Rec → Option Line)
    (loads : Line → Option Rec) (fetch : List U → Option (List (Option P)))
    (url : Item → U) (env : Item → P → Nat → Nat → Rec) (B : Nat)
    (items : List Item) (s : SaverState) (fs : FS) (hB : 0 < B) :
    (∃ r, scrape_profiles_in_batches dumps loads fetch url env B items s fs = some r ∧
      r.saver.total_records_saved = s.total_records_saved + r.successes) ∧
    (∀ (x : Item) (xs : List Item) (i acc : Nat) (s' : SaverState) (fs' : FS),
      fetch (((x :: xs).take B).map url) = none →
      scrapeLoop dumps loads fetch url env B (x :: xs) i acc s' fs' =
        { scrapeLoop dumps loads fetch url env B ((x :: xs).drop B) (i + B) acc s' fs' with
          calls := ((x :: xs).take B).map url ::
            (scrapeLoop dumps loads fetch url env B
              ((x :: xs).drop B) (i + B) acc s' fs').calls }) := by
  constructor
  · refine ⟨scrapeLoop dumps loads fetch url env B items 0 0 s fs, ?_, ?_⟩
    · unfold scrape_profiles_in_batches
      rw [if_neg (by omega)]
    · have h := scrapeLoop_total dumps loads fetch url env B items.length items le_rfl 0 0 s fs
      omega
  · intro x xs i acc s' fs' hf
    exact scrapeLoop_fetch_fail dumps loads fetch url env B x xs i acc s' fs' (by omega) hf

/-- Claim C6: with `batch_size = B > 0` and `L` items, the run invokes
the fetch collaborator exactly ceil(L / B) times, each call carrying at
most `B` identifiers, and the calls in order list the identifiers of all
items without overlap or omission. -/
theorem c6_batches_cover_in_order {Rec Item U P : Type} (dumps : Rec → Option Line)
    (loads : Line → Option Rec) (fetch : List U → Option (List (Option P)))
    (url : Item → U) (env : Item → P → Nat → Nat → Rec) (B : Nat)
    (items : List Item) (s : SaverState) (fs : FS) (hB : 0 < B) :
    ∃ r, scrape_profiles_in_batches dumps loads fetch url env B items s fs = some r ∧
      r.calls.length = (items.length + B - 1) / B ∧
      (∀ c ∈ r.calls, c.length ≤ B) ∧
      r.calls.join = items.map url := by
  refine ⟨scrapeLoop dumps loads fetch url env B items 0 0 s fs, ?_, ?_⟩
  · unfold scrape_profiles_in_batches
    rw [if_neg (by omega)]
  · exact scrapeLoop_calls dumps loads fetch url env B (by omega) items.length items
      le_rfl 0 0 s fs

/-- Claim C7: `save_record` validates that the record serializes and that
the serialization re-parses; an invalid record is dropped — the call
returns `False` and neither the saver state nor the disk changes. A valid
record (with the handle open and no rollover pending) is appended as
exactly the serialized line: the call returns `True`, the counters grow by
one, and the file's raw text is extended by the line followed by a single
newline (writes are durable immediately in the model, as after a flush). -/
theorem c7_write_validates_and_appends {Rec : Type} (dumps : Rec → Option Line)
    (loads : Line → Option Rec) (s : SaverState) (fs : FS) (r : Rec) :
    (validate_jsonl_record dumps loads r = false →
      save_record dumps loads s fs r = (false, s, fs)) ∧
    (∀ (j : Nat) (line : Line),
      validate_jsonl_record dumps loads r = true →
      dumps r = some line →
      s.openFile = some j →
      s.current_file_records < s.chunk_size →
      save_record dumps loads s fs r =
        (true,
         { s with current_file_records := s.current_file_records + 1,
                  total_records_saved := s.total_records_saved + 1 },
         fs.appendLine j line) ∧
      fileText (((fs.appendLine j line).getFile j).getD []) =
        fileText ((fs.getFile j).getD []) ++ line ++ ['\n']) := by
  constructor
  · intro hv
    unfold save_record
    rw [if_pos hv]
  · intro j line hv hd ho hlt
    have hroll : ¬ s.current_file_records ≥ s.chunk_size := by omega
    constructor
    · unfold save_record
      simp [hv, hroll, hd, ho]
    · rw [show (fs.appendLine j line).getFile j =
          some ((fs.getFile j).getD [] ++ [line]) from getFile_setFile fs j _]
      exact fileText_append _ _

/-- Claim C8: the records passed to the writer during one batch are
exactly the envelopes of the items whose fetch result is non-empty (in
batch order, with the batch number and absolute record index), and the
batch success count counts exactly the writes that reported success. -/
theorem c8_envelopes_for_nonempty_results {Rec Item P : Type} (dumps : Rec → Option Line)
    (loads : Line → Option Rec) (env : Item → P → Nat → Nat → Rec)
    (batch : List Item) (bnum iBase : Nat) (results : List (Option P))
    (s : SaverState) (fs : FS) (hlen : results.length ≤ batch.length) :
    (processBatch dumps loads env batch bnum iBase results 0 s fs).writes.map Prod.fst =
      specEnvelopes env bnum iBase (batch.zip results) 0 ∧
    (processBatch dumps loads env batch bnum iBase results 0 s fs).succ =
      ((processBatch dumps loads env batch bnum iBase results 0 s fs).writes.filter
        (fun w => w.2)).length := by
  constructor
  · have h := processBatch_writes dumps loads env batch bnum iBase results 0 s fs
      (by omega)
    simpa using h
  · exact processBatch_succ_eq_filter dumps loads env batch bnum iBase results 0 s fs

/-- Claim C9 (amended): `close` is idempotent — a second call changes
neither the saver state nor the reported counts — and the reported total
equals the number of successful writes, each successful `save_record`
adding exactly one to it; but the reported file count is the writer's
`current_chunk` counter, which after a rollover exceeds the number of
distinct chunk files actually created: the two-record run with
`chunk_size = 1` reports 2 files while a single one exists. -/
theorem c9_close_idempotent_file_count_overstated :
    (∀ s : SaverState, closeSaver (closeSaver s) = closeSaver s) ∧
    (∀ s : SaverState, closeReport (closeSaver s) = closeReport s) ∧
    (∀ (Rec : Type) (dumps : Rec → Option Line) (loads : Line → Option Rec)
      (s : SaverState) (fs : FS) (r : Rec),
      (save_record dumps loads s fs r).2.1.total_records_saved =
        s.total_records_saved + (if (save_record dumps loads s fs r).1 then 1 else 0)) ∧
    closeReport (closeSaver runA2.2.1) = (2, 2) ∧ runA2.2.2.numFiles = 1 :=
  ⟨fun _ => rfl, fun _ => rfl,
   fun _ dumps loads s fs r => save_record_total dumps loads s fs r,
   by decide, by decide⟩

/-- Claim C10: `save_jsonl` on an empty record list creates the output
directory but writes no chunk file, while constructing an
`IncrementalJSONLSaver` immediately creates (truncating) chunk file 1, so
a run that writes no record still leaves a single empty chunk file. -/
theorem c10_zero_records_edge :
    (∀ (Rec : Type) (dumps : Rec → Option Line) (N : Nat) (fs : FS),
      save_jsonl dumps ([] : List Rec) N fs = some { fs with dirMade := true }) ∧
    (∀ (N : Nat) (fs : FS),
      (initSaver N fs).2.dirMade = true ∧ (initSaver N fs).2.getFile 1 = some []) ∧
    (initSaver 100000 emptyFS).2.numFiles = 1 := by
  refine ⟨fun Rec dumps N fs => ?_, fun N fs => ⟨rfl, ?_⟩, by decide⟩
  · simp [save_jsonl]
  · exact getFile_setFile { fs with dirMade := true } 1 []

/-- Claim C1: evaluation of `save_record` at the failing input. With
`chunk_size = 1`, the first record fills chunk file 1; the second
(= `chunk_size + 1`-th) successful `save_record` performs the rollover,
and the claim says it opens and writes the file named with index 2.
The code instead calls `_start_new_file()` BEFORE `current_chunk += 1`,
so it reopens (and truncates) file index 1: after the call the write
succeeded, the chunk counter is 2, file 1 holds only the second record's
line, and no file named with index 2 exists. -/
theorem c1_rollover_reuses_old_index :
    runA2.1 = true ∧
    runA2.2.1.current_chunk = 2 ∧
    runA2.2.2.getFile 1 = some [['a', 'a']] ∧
    runA2.2.2.getFile 2 = none := by
  decide

/-- Claim C2: evaluation at the failing input. After the first save, the
disk holds one line (file 1 = the line `a`), and the rollover condition is
met. The second save — which per the claim must leave the closed file 1
untouched — truncates file 1 and rewrites it: both saves report success,
yet the total number of lines on disk stays 1, and file 1 now holds only
the second record's line; the first record's line was destroyed. -/
theorem c2_closed_chunk_file_rewritten :
    runA1.1 = true ∧ runA2.1 = true ∧
    runA1.2.2.getFile 1 = some [['a']] ∧
    runA1.2.2.totalLines = 1 ∧
    runA2.2.2.getFile 1 = some [['a', 'a']] ∧
    runA2.2.2.totalLines = 1 := by
  decide

/-- Claim C3: evaluation at the failing input. R = 2 records written
through `IncrementalJSONLSaver` with chunk_size N = 1 and zero
serialization failures should give ceil(2/1) = 2 chunk files whose line
counts sum to 2; the run actually leaves 1 file holding 1 line. -/
theorem c3_chunk_count_violated :
    runA2.1 = true ∧ runA1.1 = true ∧
    runA2.2.2.numFiles = 1 ∧ (2 + 1 - 1) / 1 = 2 ∧
    runA2.2.2.totalLines = 1 := by
  decide

/-- Witness for claim C5 at a concrete input: three items, batch size 2,
a fetch that always raises, starting from a fresh saver. -/
theorem c5_witness :
    0 < 2 ∧
    (∃ r, scrape_profiles_in_batches dumpsA loadsA
        (fun _ : List Nat => (none : Option (List (Option Nat))))
        (fun u : Nat => u) (fun _ _ _ _ => (0 : Nat)) 2 [1, 2, 3]
        (initSaver 1 emptyFS).1 (initSaver 1 emptyFS).2 = some r ∧
      r.saver.total_records_saved =
        (initSaver 1 emptyFS).1.total_records_saved + r.successes) :=
  ⟨by decide,
   (c5_fetch_failure_tolerated dumpsA loadsA
      (fun _ : List Nat => (none : Option (List (Option Nat))))
      (fun u : Nat => u) (fun _ _ _ _ => (0 : Nat)) 2 [1, 2, 3]
      (initSaver 1 emptyFS).1 (initSaver 1 emptyFS).2 (by decide)).1⟩

/-- Witness for claim C6 at a concrete input: three items in batches of
two give ceil(3/2) = 2 fetch calls covering the items in order. -/
theorem c6_witness :
    0 < 2 ∧
    (∃ r, scrape_profiles_in_batches dumpsA loadsA
        (fun _ : List Nat => (none : Option (List (Option Nat))))
        (fun u : Nat => u) (fun _ _ _ _ => (0 : Nat)) 2 [1, 2, 3]
        (initSaver 1 emptyFS).1 (initSaver 1 emptyFS).2 = some r ∧
      r.calls.length = (([1, 2, 3] : List Nat).length + 2 - 1) / 2 ∧
      (∀ c ∈ r.calls, c.length ≤ 2) ∧
      r.calls.join = ([1, 2, 3] : List Nat).map (fun u => u)) :=
  ⟨by decide,
   c6_batches_cover_in_order dumpsA loadsA
      (fun _ : List Nat => (none : Option (List (Option Nat))))
      (fun u : Nat => u) (fun _ _ _ _ => (0 : Nat)) 2 [1, 2, 3]
      (initSaver 1 emptyFS).1 (initSaver 1 emptyFS).2 (by decide)⟩

/-- Witness for claim C7 at a concrete input: a fresh saver with
`chunk_size = 5` and the record `2`, serialized as the two-character
line `aa`. -/
theorem c7_witness :
    validate_jsonl_record dumpsA loadsA 2 = true ∧
    dumpsA 2 = some ['a', 'a'] ∧
    (initSaver 5 emptyFS).1.openFile = some 1 ∧
    (initSaver 5 emptyFS).1.current_file_records < (initSaver 5 emptyFS).1.chunk_size ∧
    (save_record dumpsA loadsA (initSaver 5 emptyFS).1 (initSaver 5 emptyFS).2 2 =
        (true,
         { (initSaver 5 emptyFS).1 with
            current_file_records := (initSaver 5 emptyFS).1.current_file_records + 1,
            total_records_saved := (initSaver 5 emptyFS).1.total_records_saved + 1 },
         (initSaver 5 emptyFS).2.appendLine 1 ['a', 'a']) ∧
      fileText ((((initSaver 5 emptyFS).2.appendLine 1 ['a', 'a']).getFile 1).getD []) =
        fileText (((initSaver 5 emptyFS).2.getFile 1).getD []) ++ ['a', 'a'] ++ ['\n']) :=
  ⟨by decide, by decide, by decide, by decide,
   (c7_write_validates_and_appends dumpsA loadsA (initSaver 5 emptyFS).1
      (initSaver 5 emptyFS).2 2).2 1 ['a', 'a'] (by decide) (by decide) (by decide)
      (by decide)⟩

/-- Witness for claim C8 at a concrete input: a 3-item batch whose fetch
returned a result, an empty result, and a result. -/
theorem c8_witness :
    ([some 1, none, some 3] : List (Option Nat)).length ≤ ([10, 20, 30] : List Nat).length ∧
    ((processBatch dumpsA loadsA (fun it p bn ri => it + p + bn + ri) [10, 20, 30] 1 0
        [some 1, none, some 3] 0 (initSaver 1 emptyFS).1
        (initSaver 1 emptyFS).2).writes.map Prod.fst =
      specEnvelopes (fun it p bn ri => it + p + bn + ri) 1 0
        (([10, 20, 30] : List Nat).zip [some 1, none, some 3]) 0 ∧
    (processBatch dumpsA loadsA (fun it p bn ri => it + p + bn + ri) [10, 20, 30] 1 0
        [some 1, none, some 3] 0 (initSaver 1 emptyFS).1
        (initSaver 1 emptyFS).2).succ =
      ((processBatch dumpsA loadsA (fun it p bn ri => it + p + bn + ri) [10, 20, 30] 1 0
          [some 1, none, some 3] 0 (initSaver 1 emptyFS).1
          (initSaver 1 emptyFS).2).writes.filter (fun w => w.2)).length) :=
  ⟨by decide,
   c8_envelopes_for_nonempty_results dumpsA loadsA (fun it p bn ri => it + p + bn + ri)
      [10, 20, 30] 1 0 [some 1, none, some 3] (initSaver 1 emptyFS).1
      (initSaver 1 emptyFS).2 (by decide)⟩

/-- Claim C9, counterexample: after the two-record run with
`chunk_size = 1`, `close` reports `current_chunk = 2` chunk files, but
only one distinct chunk file was ever created on disk, so the reported
file count differs from the number of chunk files actually created. -/
theorem c9_counterexample :
    (closeReport (closeSaver runA2.2.1)).2 ≠ runA2.2.2.numFiles := by
  decide

end ScrapflyScrape
